import Mathlib

/-!
# MLCave HTTP API client (`client.go`)

A shallow embedding of `MLCaveAPIClient`: the constructor `NewMLCaveAPIClient`, the
three public operations `PushModel`, `GetModel`, `UpdateStatusModel`, and the two
private functions `executeWithoutResponseBody` and `execute` they funnel through.

Conventions of the embedding.

* A Go `string` is a sequence of bytes (`GoString`); a `[]byte` is an optional
  sequence of bytes (`ByteSlice`), `none` being the nil slice.
* The effects of a call (building a request, sending it, reading and closing the
  response body, logging) are recorded, in program order, in a trace of `Event`s
  that every function returns next to its Go results.
* What the Go standard library decides and the client cannot see into is a field
  of `World`: whether `http.NewRequest` rejects a method/URL pair, what
  `http.Client.Do` answers to a request, how `%+v` prints a request.
-/

set_option autoImplicit false

namespace MLCave

/-! ## Strings, byte slices and formatting verbs -/

/-- A Go `string`: an immutable sequence of bytes. -/
abbrev GoString := List UInt8

/-- A Go `[]byte`; `none` is the nil slice, `some []` an empty slice that is not nil. -/
abbrev ByteSlice := Option (List UInt8)

/-- The bytes of a Go string literal (Go source text is UTF-8). -/
def lit (s : String) : GoString := s.data.flatMap String.utf8EncodeChar

/-- The conversion `string(b)` of a byte slice: the same bytes, none for the nil slice. -/
def ByteSlice.string : ByteSlice → GoString
  | none => []
  | some b => b

/-- The decimal digits of a natural number, as `%v` and `%d` print them. -/
def fmtNat (n : Nat) : GoString := lit (Nat.repr n)

/-- The text `%v` and `%d` print for a Go `int`: decimal, with a leading minus sign
for a negative value. -/
def fmtInt : Int → GoString
  | Int.ofNat n => fmtNat n
  | Int.negSucc n => lit "-" ++ fmtNat (n + 1)

/-! ## Constants of `client.go` -/

/-- Name of HTTP-header with creating model parameters. -/
def ModelParams : GoString := lit "ModelParams"

/-- Name of Bearer authorization token. -/
def AuthorizationHeader : GoString := lit "Authorization"

/-- Name of HTTP-header with info about the model packer. -/
def ContentType : GoString := lit "Content-Type"

/-- The value of `http.MethodGet`. -/
def MethodGet : GoString := lit "GET"

/-- The value of `http.MethodPost`. -/
def MethodPost : GoString := lit "POST"

/-- The value of `http.MethodPut`. -/
def MethodPut : GoString := lit "PUT"

/-- The value of `http.StatusOK`. -/
def StatusOK : Int := 200

/-- The value of `time.Second`, in nanoseconds. -/
def Second : Int := 1000000000

/-! ## `http.Header` -/

/-- The bytes `net/textproto` accepts in a header field name: digits, letters and
the punctuation of an HTTP token. -/
def validHeaderFieldByte (c : UInt8) : Bool :=
  (48 ≤ c && c ≤ 57) || (97 ≤ c && c ≤ 122) || (65 ≤ c && c ≤ 90) ||
    [33, 35, 36, 37, 38, 39, 42, 43, 45, 46, 94, 95, 96, 124, 126].contains c

/-- The rewriting loop of `textproto.CanonicalMIMEHeaderKey`: upper case for the
first letter and for a letter after a dash, lower case for every other letter. -/
def canonicalLoop : Bool → List UInt8 → List UInt8
  | _, [] => []
  | upper, c :: cs =>
    let c1 : UInt8 :=
      if upper && (97 ≤ c && c ≤ 122) then c - 32
      else if !upper && (65 ≤ c && c ≤ 90) then c + 32
      else c
    c1 :: canonicalLoop (c1 == 45) cs

/-- The function `textproto.CanonicalMIMEHeaderKey`: a key holding a byte that is
not valid in a field name is returned unchanged, any other key is canonicalized. -/
def CanonicalMIMEHeaderKey (s : GoString) : GoString :=
  if s.all validHeaderFieldByte then canonicalLoop true s else s

/-- The type `http.Header`, a `map[string][]string`, as an association list with
at most one entry per key; the order of the entries carries no meaning. -/
abbrev Header := List (GoString × List GoString)

/-- The map access `h[k]`: the values stored under the key `k`, or `none` (the nil slice)
when the map has no such key. -/
def Header.index (h : Header) (k : GoString) : Option (List GoString) :=
  List.lookup k h

/-- The method `Header.Set`: the entry of the canonical form of `key` is replaced
by the single value `value`. -/
def Header.Set (h : Header) (key value : GoString) : Header :=
  (CanonicalMIMEHeaderKey key, [value]) ::
    h.filter (fun e => !(e.1 == CanonicalMIMEHeaderKey key))

/-- The method `Header.Values`: all values of the header named `key`, looked up
under its canonical form; `none` when the request has no such header. -/
def Header.Values (h : Header) (key : GoString) : Option (List GoString) :=
  h.index (CanonicalMIMEHeaderKey key)

/-- The header names present on a header map. -/
def Header.names (h : Header) : List GoString := h.map Prod.fst

/-! ## Requests, responses and the environment -/

/-- An `*http.Request`, as far as the client determines it: the method, the target
string given to `http.NewRequest`, the header map and the body (`none` when the
body reader is nil, else the bytes the reader delivers). -/
structure Request where
  Method : GoString
  URL : GoString
  Header : Header
  Body : Option (List UInt8)
  deriving DecidableEq

/-- An error value produced by the standard library, known by its `Error()` text. -/
structure StdError where
  msg : GoString
  deriving DecidableEq

/-- The body of a response, an `io.ReadCloser`: reading delivers `data` and then
either end of file (`readErr = none`) or the error `readErr`; `Close` returns
`closeErr`. -/
structure ResponseBody where
  data : List UInt8
  readErr : Option StdError
  closeErr : Option StdError
  deriving DecidableEq

/-- An `*http.Response`, as far as the client reads it. -/
structure Response where
  StatusCode : Int
  Body : ResponseBody
  deriving DecidableEq

/-- What `http.Client.Do` returns: a response and a nil error, or a non-nil error
(next to which a response may or may not be present). -/
inductive DoResult where
  | response (response : Response)
  | failure (response : Option Response) (err : StdError)
  deriving DecidableEq

/-- The type `http.Client`, as far as the client configures it: `Timeout`, a
`time.Duration`, that is a signed 64-bit count of nanoseconds. -/
structure HttpClient where
  Timeout : Int
  deriving DecidableEq

/-- What the standard library and the network decide. -/
structure World where
  /-- The error of `http.NewRequest` for a method and a URL, `none` when it succeeds. -/
  newRequestError : GoString → GoString → Option StdError
  /-- The answer of `httpClient.Do` to a request. -/
  Do : HttpClient → Request → DoResult
  /-- The text `%+v` prints for an `*http.Request`. -/
  formatRequest : Request → GoString

/-- The function `http.NewRequest`: on success a request with the given method
(`GET` for the empty method), target and body, and an empty header map. -/
def NewRequest (w : World) (method url : GoString) (body : Option (List UInt8)) :
    Except StdError Request :=
  match w.newRequestError method url with
  | some err => .error err
  | none =>
    .ok { Method := if method = [] then MethodGet else method
          URL := url
          Header := []
          Body := body }

/-- The function `io.ReadAll` on a response body: the bytes read, in a slice that
is never nil, and the read error if reading stopped before end of file. -/
def ReadAll (b : ResponseBody) : List UInt8 × Option StdError :=
  (b.data, b.readErr)

/-- The method `Close` of a response body. -/
def ResponseBody.Close (b : ResponseBody) : Option StdError :=
  b.closeErr

/-! ## The client -/

/-- Modelled from the spec: the type `config.MLCaveClientConfig`, whose declaration
is in the package `config`: a base URI, a bearer token and a request timeout in
seconds, a Go integer. -/
structure MLCaveClientConfig where
  URI : GoString
  Token : GoString
  TimeoutSec : Int
  deriving DecidableEq

/-- MLCaveAPIClient HTTP API client for MLCave server. -/
structure MLCaveAPIClient where
  httpClient : HttpClient
  URI : GoString
  Token : GoString
  deriving DecidableEq

/-- A value reduced to the range of a signed 64-bit integer, as Go integer
conversion and multiplication do. -/
def wrapInt64 (x : Int) : Int :=
  (x + 9223372036854775808) % 18446744073709551616 - 9223372036854775808

/-- NewMLCaveAPIClient init structure MLCaveAPIClient. -/
def NewMLCaveAPIClient (cfg : MLCaveClientConfig) : MLCaveAPIClient :=
  { httpClient := { Timeout := wrapInt64 (wrapInt64 cfg.TimeoutSec * Second) }
    Token := cfg.Token
    URI := cfg.URI }

/-- The header bag of `PushModel`, a `map[string][]byte`. -/
abbrev HeaderBag := List (GoString × ByteSlice)

/-- The map access `headers[key]` on a bag that may be the nil map: the value
stored under `key`, the nil slice when the map is nil or has no such key. -/
def bagIndex (headers : Option HeaderBag) (key : GoString) : ByteSlice :=
  match headers with
  | none => none
  | some m => (List.lookup key m).getD none

/-- The errors the client returns: one constructor for each `fmt.Errorf` of
`execute`, and one for an error of the standard library returned as it is. -/
inductive Error where
  /-- Line 65: `http.NewRequest` failed. -/
  | createRequest (method uri : GoString) (err : StdError)
  /-- Line 83: `httpClient.Do` failed. -/
  | sendRequest (method : GoString) (httpRequest : Request) (err : StdError)
  /-- Line 97: the status code of the response is not 200. -/
  | statusCode (code : Int) (serviceGroup : GoString)
  /-- Line 101: the error of `io.ReadAll`, not wrapped. -/
  | readBody (err : StdError)
  deriving DecidableEq

/-- The text of an error, `err.Error()`: the format string of its `fmt.Errorf`
with the verbs filled in. -/
def Error.text (w : World) : Error → GoString
  | .createRequest method uri err =>
    lit "execute() create http " ++ method ++ lit " request, uri: " ++ uri ++
      lit ", err: " ++ err.msg
  | .sendRequest method httpRequest err =>
    lit "execute() send http " ++ method ++ lit " error, httpRequest: " ++
      w.formatRequest httpRequest ++ lit ". Error: " ++ err.msg
  | .statusCode code serviceGroup =>
    lit "execute() received http status code: " ++ fmtInt code ++
      lit " for service group: " ++ serviceGroup
  | .readBody err => err.msg

/-- The observable steps of a call, in program order. -/
inductive Event where
  /-- A call of `http.NewRequest`. -/
  | newRequest (method url : GoString) (body : Option (List UInt8))
  /-- A call of `httpClient.Do`. -/
  | send (httpRequest : Request)
  /-- A call of `io.ReadAll` on the response body. -/
  | readAll
  /-- A call of `response.Body.Close`. -/
  | close
  /-- A call of `glog.Errorf`, with the text logged. -/
  | log (text : GoString)
  deriving DecidableEq

/-- The results of `execute` and the steps it took. -/
structure Outcome where
  bytes : ByteSlice
  err : Option Error
  trace : List Event
  deriving DecidableEq

/-- The result of a function that returns only an error, and the steps it took. -/
structure ErrOutcome where
  err : Option Error
  trace : List Event
  deriving DecidableEq

/-- Lines 70 to 78 of `execute`: the headers set on the request just built. -/
def setHeaders (o : MLCaveAPIClient) (headers : Option HeaderBag) (httpRequest : Request) :
    Request :=
  let httpRequest : Request :=
    { httpRequest with
      Header := httpRequest.Header.Set AuthorizationHeader (lit "Bearer " ++ o.Token) }
  let httpRequest : Request :=
    if headers.isSome && (bagIndex headers ModelParams).isSome then
      { httpRequest with
        Header := httpRequest.Header.Set ModelParams (bagIndex headers ModelParams).string }
    else httpRequest
  if headers.isSome && (bagIndex headers ContentType).isSome then
    { httpRequest with
      Header := httpRequest.Header.Set ContentType (bagIndex headers ContentType).string }
  else httpRequest

/-- Lines 88 to 93 of `execute`, the deferred function: the body is closed, the
close error is assigned to the local variable `err` and logged when it is not nil. -/
def deferredClose (response : Response) : List Event :=
  match response.Body.Close with
  | some err => [.close, .log (lit "response.Body.Close() error: " ++ err.msg)]
  | none => [.close]

/-- The function `execute` (lines 60 to 102). The results are fixed by the `return`
statement; the deferred function runs after it, and the local variable `err` it
assigns is not a result of the function. -/
def execute (w : World) (o : MLCaveAPIClient) (serviceGroup method uri : GoString)
    (body : Option (List UInt8)) (headers : Option HeaderBag) : Outcome :=
  match NewRequest w method uri body with
  | .error err =>
    { bytes := none
      err := some (.createRequest method o.URI err)
      trace := [.newRequest method uri body] }
  | .ok httpRequest =>
    let httpRequest := setHeaders o headers httpRequest
    match w.Do o.httpClient httpRequest with
    | .failure _ err =>
      { bytes := none
        err := some (.sendRequest method httpRequest err)
        trace := [.newRequest method uri body, .send httpRequest] }
    | .response response =>
      let returned : Outcome :=
        if response.StatusCode ≠ StatusOK then
          { bytes := none
            err := some (.statusCode response.StatusCode serviceGroup)
            trace := [] }
        else
          { bytes := some (ReadAll response.Body).1
            err := (ReadAll response.Body).2.map Error.readBody
            trace := [.readAll] }
      { bytes := returned.bytes
        err := returned.err
        trace := [.newRequest method uri body, .send httpRequest] ++ returned.trace ++
          deferredClose response }

/-- The function `executeWithoutResponseBody` (lines 55 to 58). -/
def executeWithoutResponseBody (w : World) (o : MLCaveAPIClient)
    (serviceGroup method uri : GoString) (body : Option (List UInt8))
    (headers : Option HeaderBag) : ErrOutcome :=
  let r := execute w o serviceGroup method uri body headers
  { err := r.err, trace := r.trace }

/-- PushModel push model to MLCave storage. `bytes.NewBuffer(model)` is a reader
that delivers the bytes of `model`. -/
def PushModel (w : World) (o : MLCaveAPIClient) (serviceGroup : GoString)
    (model : ByteSlice) (headers : Option HeaderBag) : ErrOutcome :=
  let uri := o.URI ++ lit "/" ++ serviceGroup
  executeWithoutResponseBody w o serviceGroup MethodPost uri (some (model.getD [])) headers

/-- GetModel get model from MLCave storage. -/
def GetModel (w : World) (o : MLCaveAPIClient) (serviceGroup : GoString) (skip : Int) :
    Outcome :=
  let uri := o.URI ++ lit "/" ++ serviceGroup ++ lit "/" ++ fmtInt skip
  execute w o serviceGroup MethodGet uri none none

/-- UpdateStatusModel update status model to current. -/
def UpdateStatusModel (w : World) (o : MLCaveAPIClient) (serviceGroup : GoString)
    (skip : Int) : ErrOutcome :=
  let uri := o.URI ++ lit "/" ++ serviceGroup ++ lit "/" ++ fmtInt skip
  executeWithoutResponseBody w o serviceGroup MethodPut uri none none

/-! ## Calls of the client's functions -/

/-- A call of one of the functions of the client that send a request: the private
`execute` with arbitrary arguments, or one of the three public operations. -/
inductive Call where
  | execute (serviceGroup method uri : GoString) (body : Option (List UInt8))
      (headers : Option HeaderBag)
  | PushModel (serviceGroup : GoString) (model : ByteSlice) (headers : Option HeaderBag)
  | GetModel (serviceGroup : GoString) (skip : Int)
  | UpdateStatusModel (serviceGroup : GoString) (skip : Int)

/-- The service group a call is made for. -/
def Call.serviceGroup : Call → GoString
  | .execute serviceGroup _ _ _ _ => serviceGroup
  | .PushModel serviceGroup _ _ => serviceGroup
  | .GetModel serviceGroup _ => serviceGroup
  | .UpdateStatusModel serviceGroup _ => serviceGroup

/-- The HTTP method a call passes to `execute`. -/
def Call.method : Call → GoString
  | .execute _ method _ _ _ => method
  | .PushModel _ _ _ => MethodPost
  | .GetModel _ _ => MethodGet
  | .UpdateStatusModel _ _ => MethodPut

/-- The `[]byte` result of a call: `none` for `PushModel` and `UpdateStatusModel`,
which have no such result. -/
def Call.payload (w : World) (o : MLCaveAPIClient) : Call → Option ByteSlice
  | .execute serviceGroup method uri body headers =>
    some (MLCave.execute w o serviceGroup method uri body headers).bytes
  | .PushModel _ _ _ => none
  | .GetModel serviceGroup skip => some (MLCave.GetModel w o serviceGroup skip).bytes
  | .UpdateStatusModel _ _ => none

/-- The `error` result of a call. -/
def Call.err (w : World) (o : MLCaveAPIClient) : Call → Option Error
  | .execute serviceGroup method uri body headers =>
    (MLCave.execute w o serviceGroup method uri body headers).err
  | .PushModel serviceGroup model headers =>
    (MLCave.PushModel w o serviceGroup model headers).err
  | .GetModel serviceGroup skip => (MLCave.GetModel w o serviceGroup skip).err
  | .UpdateStatusModel serviceGroup skip =>
    (MLCave.UpdateStatusModel w o serviceGroup skip).err

/-- The steps a call takes. -/
def Call.trace (w : World) (o : MLCaveAPIClient) : Call → List Event
  | .execute serviceGroup method uri body headers =>
    (MLCave.execute w o serviceGroup method uri body headers).trace
  | .PushModel serviceGroup model headers =>
    (MLCave.PushModel w o serviceGroup model headers).trace
  | .GetModel serviceGroup skip => (MLCave.GetModel w o serviceGroup skip).trace
  | .UpdateStatusModel serviceGroup skip =>
    (MLCave.UpdateStatusModel w o serviceGroup skip).trace

/-- The requests a trace hands to the transport, in order. -/
def sent : List Event → List Request
  | [] => []
  | .send r :: es => r :: sent es
  | _ :: es => sent es

/-- The calls of `http.NewRequest` in a trace, in order. -/
def built : List Event → List (GoString × GoString × Option (List UInt8))
  | [] => []
  | .newRequest method url body :: es => (method, url, body) :: built es
  | _ :: es => built es

/-- The steps of a trace other than logging. -/
def unlogged : List Event → List Event
  | [] => []
  | .log _ :: es => unlogged es
  | e :: es => e :: unlogged es

/-- The request `execute` hands to `httpClient.Do` once `http.NewRequest` has
succeeded: the new request with the headers of lines 70 to 78 set. -/
def outgoing (o : MLCaveAPIClient) (method uri : GoString) (body : Option (List UInt8))
    (headers : Option HeaderBag) : Request :=
  setHeaders o headers
    { Method := if method = [] then MethodGet else method
      URL := uri
      Header := []
      Body := body }

/-- The header entry a bag value gives rise to: none for the nil slice. -/
def headerEntry (name : GoString) (value : ByteSlice) : Header :=
  match value with
  | some b => [(name, [b])]
  | none => []

/-- Whether an error is of one of the three kinds of the specification's taxonomy:
request-build error, transport error, unexpected-status error. -/
def Error.inTaxonomy : Error → Bool
  | .createRequest _ _ _ => true
  | .sendRequest _ _ _ => true
  | .statusCode _ _ => true
  | .readBody _ => false

/-- The outcomes the specification's taxonomy allows: a nil error, or the nil
slice together with an error of one of the three kinds. -/
def Outcome.inTaxonomy (r : Outcome) : Bool :=
  r.err.isNone || (r.bytes.isNone && r.err.any Error.inTaxonomy)

/-- The environment `w` with the close error of every response body replaced. -/
def World.withCloseErr (w : World) (closeErr : Option StdError) : World :=
  { w with
    Do := fun client r =>
      match w.Do client r with
      | .response response =>
        .response { response with Body := { response.Body with closeErr := closeErr } }
      | .failure response err => .failure response err }

/-! ## Example environments -/

/-- A client for `http://svc` with the token `abc` and a timeout of 30 seconds. -/
def exampleClient : MLCaveAPIClient :=
  NewMLCaveAPIClient { URI := lit "http://svc", Token := lit "abc", TimeoutSec := 30 }

/-- An environment in which every request is built and answered with the given
response. -/
def answering (response : Response) : World :=
  { newRequestError := fun _ _ => none
    Do := fun _ _ => .response response
    formatRequest := fun r => r.Method ++ lit " " ++ r.URL }

/-- An environment in which every request is built and no request is answered:
sending fails with the given error. -/
def refusing (cause : StdError) : World :=
  { newRequestError := fun _ _ => none
    Do := fun _ _ => .failure none cause
    formatRequest := fun r => r.Method ++ lit " " ++ r.URL }

/-! ## Lemmas on header names -/

theorem canonical_authorization :
    CanonicalMIMEHeaderKey AuthorizationHeader = lit "Authorization" := by decide

theorem canonical_modelParams :
    CanonicalMIMEHeaderKey ModelParams = lit "Modelparams" := by decide

theorem canonical_contentType :
    CanonicalMIMEHeaderKey ContentType = lit "Content-Type" := by decide

theorem bagIndex_none (key : GoString) : bagIndex none key = none := rfl

/-- The header map of the outgoing request, entry by entry. -/
theorem outgoing_header (o : MLCaveAPIClient) (method uri : GoString)
    (body : Option (List UInt8)) (headers : Option HeaderBag) :
    (outgoing o method uri body headers).Header =
      headerEntry (lit "Content-Type") (bagIndex headers ContentType) ++
        (headerEntry (lit "Modelparams") (bagIndex headers ModelParams) ++
          [(lit "Authorization", [lit "Bearer " ++ o.Token])]) := by
  have h1 : (lit "Authorization" == lit "Modelparams") = false := by decide
  have h2 : (lit "Authorization" == lit "Content-Type") = false := by decide
  have h3 : (lit "Modelparams" == lit "Content-Type") = false := by decide
  cases headers with
  | none =>
    simp [outgoing, setHeaders, bagIndex, headerEntry, Header.Set, canonical_authorization]
  | some m =>
    cases hm : bagIndex (some m) ModelParams <;> cases hc : bagIndex (some m) ContentType <;>
      simp [outgoing, setHeaders, headerEntry, Header.Set, canonical_authorization,
        canonical_modelParams, canonical_contentType, hm, hc, h1, h2, h3, ByteSlice.string]

theorem setHeaders_method (o : MLCaveAPIClient) (headers : Option HeaderBag) (r : Request) :
    (setHeaders o headers r).Method = r.Method := by
  unfold setHeaders
  dsimp only
  split <;> split <;> rfl

theorem setHeaders_url (o : MLCaveAPIClient) (headers : Option HeaderBag) (r : Request) :
    (setHeaders o headers r).URL = r.URL := by
  unfold setHeaders
  dsimp only
  split <;> split <;> rfl

theorem setHeaders_body (o : MLCaveAPIClient) (headers : Option HeaderBag) (r : Request) :
    (setHeaders o headers r).Body = r.Body := by
  unfold setHeaders
  dsimp only
  split <;> split <;> rfl

theorem outgoing_method (o : MLCaveAPIClient) (method uri : GoString)
    (body : Option (List UInt8)) (headers : Option HeaderBag) :
    (outgoing o method uri body headers).Method = if method = [] then MethodGet else method := by
  simp [outgoing, setHeaders_method]

theorem outgoing_url (o : MLCaveAPIClient) (method uri : GoString)
    (body : Option (List UInt8)) (headers : Option HeaderBag) :
    (outgoing o method uri body headers).URL = uri := by
  simp [outgoing, setHeaders_url]

theorem outgoing_body (o : MLCaveAPIClient) (method uri : GoString)
    (body : Option (List UInt8)) (headers : Option HeaderBag) :
    (outgoing o method uri body headers).Body = body := by
  simp [outgoing, setHeaders_body]

/-- The outgoing request, field by field. -/
theorem outgoing_eq (o : MLCaveAPIClient) (method uri : GoString)
    (body : Option (List UInt8)) (headers : Option HeaderBag) :
    outgoing o method uri body headers =
      { Method := if method = [] then MethodGet else method
        URL := uri
        Header := headerEntry (lit "Content-Type") (bagIndex headers ContentType) ++
          (headerEntry (lit "Modelparams") (bagIndex headers ModelParams) ++
            [(lit "Authorization", [lit "Bearer " ++ o.Token])])
        Body := body } := by
  have h1 := outgoing_method o method uri body headers
  have h2 := outgoing_url o method uri body headers
  have h3 := outgoing_header o method uri body headers
  have h4 := outgoing_body o method uri body headers
  cases hr : outgoing o method uri body headers with
  | mk m u h b =>
    rw [hr] at h1 h2 h3 h4
    simp only at h1 h2 h3 h4
    rw [h1, h2, h3, h4]

theorem fmtInt_of_nonneg (n : Int) (h : 0 ≤ n) : fmtInt n = fmtNat n.toNat := by
  cases n with
  | ofNat k => rfl
  | negSucc k => exact absurd h (by simp)

/-! ## Lemmas on the paths of `execute` -/

theorem execute_createRequest (w : World) (o : MLCaveAPIClient)
    (serviceGroup method uri : GoString) (body : Option (List UInt8))
    (headers : Option HeaderBag) (e : StdError)
    (hnew : w.newRequestError method uri = some e) :
    execute w o serviceGroup method uri body headers =
      { bytes := none
        err := some (.createRequest method o.URI e)
        trace := [.newRequest method uri body] } := by
  simp [execute, NewRequest, hnew]

theorem execute_sendFailure (w : World) (o : MLCaveAPIClient)
    (serviceGroup method uri : GoString) (body : Option (List UInt8))
    (headers : Option HeaderBag) (r : Option Response) (e : StdError)
    (hnew : w.newRequestError method uri = none)
    (hdo : w.Do o.httpClient (outgoing o method uri body headers) = .failure r e) :
    execute w o serviceGroup method uri body headers =
      { bytes := none
        err := some (.sendRequest method (outgoing o method uri body headers) e)
        trace := [.newRequest method uri body, .send (outgoing o method uri body headers)] } := by
  unfold outgoing at hdo
  simp [execute, NewRequest, hnew, hdo, outgoing]

theorem execute_badStatus (w : World) (o : MLCaveAPIClient)
    (serviceGroup method uri : GoString) (body : Option (List UInt8))
    (headers : Option HeaderBag) (response : Response)
    (hnew : w.newRequestError method uri = none)
    (hdo : w.Do o.httpClient (outgoing o method uri body headers) = .response response)
    (hs : response.StatusCode ≠ StatusOK) :
    execute w o serviceGroup method uri body headers =
      { bytes := none
        err := some (.statusCode response.StatusCode serviceGroup)
        trace := [.newRequest method uri body, .send (outgoing o method uri body headers)] ++
          deferredClose response } := by
  unfold outgoing at hdo
  simp [execute, NewRequest, hnew, hdo, outgoing, hs]

theorem execute_statusOK (w : World) (o : MLCaveAPIClient)
    (serviceGroup method uri : GoString) (body : Option (List UInt8))
    (headers : Option HeaderBag) (response : Response)
    (hnew : w.newRequestError method uri = none)
    (hdo : w.Do o.httpClient (outgoing o method uri body headers) = .response response)
    (hs : response.StatusCode = StatusOK) :
    execute w o serviceGroup method uri body headers =
      { bytes := some response.Body.data
        err := response.Body.readErr.map Error.readBody
        trace := [.newRequest method uri body, .send (outgoing o method uri body headers),
          .readAll] ++ deferredClose response } := by
  unfold outgoing at hdo
  simp [execute, NewRequest, hnew, hdo, outgoing, hs, ReadAll]

theorem sent_deferredClose (response : Response) : sent (deferredClose response) = [] := by
  unfold deferredClose
  split <;> rfl

theorem built_deferredClose (response : Response) : built (deferredClose response) = [] := by
  unfold deferredClose
  split <;> rfl

theorem unlogged_deferredClose (response : Response) :
    unlogged (deferredClose response) = [.close] := by
  unfold deferredClose
  split <;> rfl

theorem count_close_deferredClose (response : Response) :
    (deferredClose response).count .close = 1 := by
  unfold deferredClose
  split <;> simp [List.count_cons]

/-- The requests `execute` sends: the outgoing request, once, when it could be built. -/
theorem sent_execute (w : World) (o : MLCaveAPIClient)
    (serviceGroup method uri : GoString) (body : Option (List UInt8))
    (headers : Option HeaderBag) :
    sent (execute w o serviceGroup method uri body headers).trace =
      if w.newRequestError method uri = none then [outgoing o method uri body headers]
      else [] := by
  cases hnew : w.newRequestError method uri with
  | some e => simp [execute_createRequest w o serviceGroup method uri body headers e hnew, sent]
  | none =>
    cases hdo : w.Do o.httpClient (outgoing o method uri body headers) with
    | failure r e =>
      simp [execute_sendFailure w o serviceGroup method uri body headers r e hnew hdo, sent]
    | response response =>
      by_cases hs : response.StatusCode = StatusOK
      · simp [execute_statusOK w o serviceGroup method uri body headers response hnew hdo hs,
          sent, sent_deferredClose]
      · simp [execute_badStatus w o serviceGroup method uri body headers response hnew hdo hs,
          sent, sent_deferredClose]

/-- The requests `execute` builds: one call of `http.NewRequest`, with its arguments. -/
theorem built_execute (w : World) (o : MLCaveAPIClient)
    (serviceGroup method uri : GoString) (body : Option (List UInt8))
    (headers : Option HeaderBag) :
    built (execute w o serviceGroup method uri body headers).trace = [(method, uri, body)] := by
  cases hnew : w.newRequestError method uri with
  | some e => simp [execute_createRequest w o serviceGroup method uri body headers e hnew, built]
  | none =>
    cases hdo : w.Do o.httpClient (outgoing o method uri body headers) with
    | failure r e =>
      simp [execute_sendFailure w o serviceGroup method uri body headers r e hnew hdo, built]
    | response response =>
      by_cases hs : response.StatusCode = StatusOK
      · simp [execute_statusOK w o serviceGroup method uri body headers response hnew hdo hs,
          built, built_deferredClose]
      · simp [execute_badStatus w o serviceGroup method uri body headers response hnew hdo hs,
          built, built_deferredClose]

/-- A request found among those sent by `execute` is the outgoing request, and
`http.NewRequest` has succeeded. -/
theorem of_mem_sent_execute (w : World) (o : MLCaveAPIClient)
    (serviceGroup method uri : GoString) (body : Option (List UInt8))
    (headers : Option HeaderBag) (req : Request)
    (h : req ∈ sent (execute w o serviceGroup method uri body headers).trace) :
    w.newRequestError method uri = none ∧ req = outgoing o method uri body headers := by
  rw [sent_execute] at h
  by_cases hnew : w.newRequestError method uri = none
  · simp [hnew] at h
    exact ⟨hnew, h⟩
  · simp [hnew] at h

/-- Every call is a call of `execute`: its error and its trace are those of
`execute` at the call's service group and method, and its payload, when it has
one, is the bytes `execute` returns. -/
theorem Call.as_execute (w : World) (o : MLCaveAPIClient) (c : Call) :
    ∃ uri body headers,
      c.err w o = (MLCave.execute w o c.serviceGroup c.method uri body headers).err ∧
      c.trace w o = (MLCave.execute w o c.serviceGroup c.method uri body headers).trace ∧
      (∀ b, c.payload w o = some b →
        b = (MLCave.execute w o c.serviceGroup c.method uri body headers).bytes) := by
  cases c with
  | execute g m u b h => exact ⟨u, b, h, rfl, rfl, fun _ hb => (Option.some.inj hb).symm⟩
  | PushModel g model h =>
    exact ⟨_, _, h, rfl, rfl, fun _ hb => by simp [Call.payload] at hb⟩
  | GetModel g skip => exact ⟨_, none, none, rfl, rfl, fun _ hb => (Option.some.inj hb).symm⟩
  | UpdateStatusModel g skip =>
    exact ⟨_, none, none, rfl, rfl, fun _ hb => by simp [Call.payload] at hb⟩

/-! ## Responses with a status other than 200 -/

/-- C1: for every client, every service group and every call (of `execute` or of
one of the three operations), if the transport answers the request the call sent
with a response whose status code is not 200 (201 and 204 included), then the call
returns the status-code error of that code and service group, an error whose text
contains the decimal status code and the service group, and the byte slice the
call returns, if it returns one, is nil. -/
theorem non_200_status_is_an_error (w : World) (o : MLCaveAPIClient) (c : Call)
    (req : Request) (response : Response)
    (hsent : req ∈ sent (c.trace w o))
    (hdo : w.Do o.httpClient req = .response response)
    (hstatus : response.StatusCode ≠ 200) :
    c.err w o = some (.statusCode response.StatusCode c.serviceGroup) ∧
    (∃ e, c.err w o = some e ∧
      e.text w = lit "execute() received http status code: " ++
        fmtInt response.StatusCode ++ lit " for service group: " ++ c.serviceGroup ∧
      fmtInt response.StatusCode <:+: e.text w ∧
      c.serviceGroup <:+: e.text w) ∧
    (∀ b, c.payload w o = some b → b = none) := by
  obtain ⟨uri, body, headers, herr, htrace, hpay⟩ := Call.as_execute w o c
  rw [htrace] at hsent
  obtain ⟨hnew, hreq⟩ := of_mem_sent_execute w o _ _ _ _ _ req hsent
  rw [hreq] at hdo
  have hex := execute_badStatus w o c.serviceGroup c.method uri body headers response
    hnew hdo hstatus
  rw [hex] at herr hpay
  refine ⟨herr, ⟨_, herr, rfl, ?_, ?_⟩, hpay⟩
  · exact ⟨lit "execute() received http status code: ",
      lit " for service group: " ++ c.serviceGroup, by simp [Error.text]⟩
  · exact ⟨lit "execute() received http status code: " ++ fmtInt response.StatusCode ++
      lit " for service group: ", [], by simp [Error.text]⟩

/-- C1 at `GetModel("groupA", 3)` answered with status 404: the call returns the
status-code error for 404 and `groupA`, and a nil byte slice. -/
theorem non_200_status_is_an_error_witness :
    (GetModel (answering ⟨404, ⟨lit "gone", none, none⟩⟩) exampleClient (lit "groupA") 3).err =
      some (.statusCode 404 (lit "groupA")) ∧
    (GetModel (answering ⟨404, ⟨lit "gone", none, none⟩⟩) exampleClient (lit "groupA") 3).bytes =
      none := by
  have h := non_200_status_is_an_error (answering ⟨404, ⟨lit "gone", none, none⟩⟩)
    exampleClient (.GetModel (lit "groupA") 3)
    (outgoing exampleClient MethodGet (lit "http://svc/groupA/3") none none)
    ⟨404, ⟨lit "gone", none, none⟩⟩ (by decide) rfl (by decide)
  exact ⟨h.1, h.2.2 _ rfl⟩

/-! ## The three operations -/

/-- C2: for every service group `g` and every `skip ≥ 0`, `GetModel(g, skip)` is
`execute` with the method GET, the target `URI ++ "/" ++ g ++ "/" ++ decimal(skip)`,
no body and no header bag; it builds exactly one request, with these arguments; it
sends at most one request, which carries the Authorization header only; and when
the transport answers that request with status 200 and a body that is read to its
end, `GetModel` returns exactly the bytes of the body and a nil error. -/
theorem getModel_request_and_result (w : World) (o : MLCaveAPIClient) (g : GoString)
    (skip : Int) (hskip : 0 ≤ skip) :
    GetModel w o g skip =
      execute w o g (lit "GET") (o.URI ++ lit "/" ++ g ++ lit "/" ++ fmtNat skip.toNat)
        none none ∧
    built (GetModel w o g skip).trace =
      [(lit "GET", o.URI ++ lit "/" ++ g ++ lit "/" ++ fmtNat skip.toNat, none)] ∧
    (sent (GetModel w o g skip).trace).length ≤ 1 ∧
    (∀ req ∈ sent (GetModel w o g skip).trace,
      req = { Method := lit "GET"
              URL := o.URI ++ lit "/" ++ g ++ lit "/" ++ fmtNat skip.toNat
              Header := [(lit "Authorization", [lit "Bearer " ++ o.Token])]
              Body := none }) ∧
    (∀ req response, req ∈ sent (GetModel w o g skip).trace →
      w.Do o.httpClient req = .response response →
      response.StatusCode = 200 → response.Body.readErr = none →
      (GetModel w o g skip).bytes = some response.Body.data ∧
      (GetModel w o g skip).err = none) := by
  have hdef : GetModel w o g skip =
      execute w o g (lit "GET") (o.URI ++ lit "/" ++ g ++ lit "/" ++ fmtNat skip.toNat)
        none none := by
    simp [GetModel, fmtInt_of_nonneg skip hskip, MethodGet]
  refine ⟨hdef, ?_, ?_, ?_, ?_⟩
  · rw [hdef, built_execute]
  · rw [hdef, sent_execute]
    split <;> simp
  · intro req hreq
    rw [hdef] at hreq
    obtain ⟨_, h⟩ := of_mem_sent_execute w o _ _ _ _ _ req hreq
    rw [h, outgoing_eq]
    simp [bagIndex, headerEntry, MethodGet]
  · intro req response hreq hdo hs hread
    rw [hdef] at hreq ⊢
    obtain ⟨hnew, h⟩ := of_mem_sent_execute w o _ _ _ _ _ req hreq
    rw [h] at hdo
    rw [execute_statusOK w o _ _ _ _ _ response hnew hdo hs]
    simp [hread]

/-- C2 at `GetModel("groupA", 3)` on the client for `http://svc`, answered with
status 200 and the body `hello`: the call returns `hello` and a nil error. -/
theorem getModel_request_and_result_witness :
    (0 : Int) ≤ 3 ∧
    (GetModel (answering ⟨200, ⟨lit "hello", none, none⟩⟩) exampleClient (lit "groupA") 3).bytes =
      some (lit "hello") ∧
    (GetModel (answering ⟨200, ⟨lit "hello", none, none⟩⟩) exampleClient (lit "groupA") 3).err =
      none :=
  ⟨by decide,
    (getModel_request_and_result (answering ⟨200, ⟨lit "hello", none, none⟩⟩) exampleClient
      (lit "groupA") 3 (by decide)).2.2.2.2
      (outgoing exampleClient MethodGet (lit "http://svc/groupA/3") none none)
      ⟨200, ⟨lit "hello", none, none⟩⟩ (by decide) rfl rfl rfl⟩

/-- C3: for every service group `g`, every model and every header bag, when
`http.NewRequest` accepts the method and the target, `PushModel(g, model, headers)`
hands the transport exactly one request; its method is POST, its target is
`URI ++ "/" ++ g` with `g` copied as it is, its body delivers the bytes of `model`
and its Authorization header is the single value `"Bearer " ++ Token`. -/
theorem pushModel_request (w : World) (o : MLCaveAPIClient) (g : GoString)
    (model : ByteSlice) (headers : Option HeaderBag)
    (hnew : w.newRequestError (lit "POST") (o.URI ++ lit "/" ++ g) = none) :
    ∃ req, sent (PushModel w o g model headers).trace = [req] ∧
      req.Method = lit "POST" ∧
      req.URL = o.URI ++ lit "/" ++ g ∧
      req.Body = some model.string ∧
      (∀ b, model = some b → req.Body = some b) ∧
      req.Header.Values AuthorizationHeader = some [lit "Bearer " ++ o.Token] ∧
      built (PushModel w o g model headers).trace =
        [(lit "POST", o.URI ++ lit "/" ++ g, some model.string)] := by
  have hstr : model.getD [] = model.string := by cases model <;> rfl
  have htrace : (PushModel w o g model headers).trace =
      (execute w o g (lit "POST") (o.URI ++ lit "/" ++ g) (some model.string) headers).trace := by
    simp [PushModel, executeWithoutResponseBody, hstr, MethodPost]
  have h1 : (lit "Authorization" == lit "Modelparams") = false := by decide
  have h2 : (lit "Authorization" == lit "Content-Type") = false := by decide
  have hne : lit "POST" ≠ [] := by decide
  refine ⟨outgoing o (lit "POST") (o.URI ++ lit "/" ++ g) (some model.string) headers,
    ?_, ?_, ?_, ?_, ?_, ?_, ?_⟩
  · rw [htrace, sent_execute, if_pos hnew]
  · rw [outgoing_method]
    simp [hne]
  · rw [outgoing_url]
  · rw [outgoing_body]
  · intro b hb
    rw [outgoing_body, hb]
    rfl
  · rw [outgoing_header]
    cases bagIndex headers ContentType <;> cases bagIndex headers ModelParams <;>
      simp [Header.Values, Header.index, headerEntry, canonical_authorization, List.lookup,
        h1, h2]
  · rw [htrace, built_execute]

/-- C3 at `PushModel("groupA", [1, 2], nil)` on the client for `http://svc` with the
token `abc`, in an environment that builds every request. -/
theorem pushModel_request_witness :
    ∃ req, sent (PushModel (answering ⟨200, ⟨[], none, none⟩⟩) exampleClient (lit "groupA")
        (some [1, 2]) none).trace = [req] ∧
      req.Method = lit "POST" ∧ req.URL = lit "http://svc/groupA" ∧ req.Body = some [1, 2] ∧
      req.Header.Values AuthorizationHeader = some [lit "Bearer abc"] := by
  obtain ⟨req, h1, h2, h3, h4, _, h6, _⟩ :=
    pushModel_request (answering ⟨200, ⟨[], none, none⟩⟩) exampleClient (lit "groupA")
      (some [1, 2]) none rfl
  exact ⟨req, h1, h2, h3, h4, h6⟩

/-- C4: for every service group `g` and every integer `skip`,
`UpdateStatusModel(g, skip)` returns exactly the error of `execute` called with
the method PUT, the target `URI ++ "/" ++ g ++ "/" ++ decimal(skip)`, no body and
no header bag, and whatever bytes `execute` returns are dropped; it builds exactly
one request, with these arguments and with the target `GetModel(g, skip)` builds;
a request it sends has the method PUT, that target and no body. -/
theorem updateStatusModel_request (w : World) (o : MLCaveAPIClient) (g : GoString)
    (skip : Int) :
    UpdateStatusModel w o g skip =
      { err := (execute w o g (lit "PUT") (o.URI ++ lit "/" ++ g ++ lit "/" ++ fmtInt skip)
          none none).err
        trace := (execute w o g (lit "PUT") (o.URI ++ lit "/" ++ g ++ lit "/" ++ fmtInt skip)
          none none).trace } ∧
    built (UpdateStatusModel w o g skip).trace =
      [(lit "PUT", o.URI ++ lit "/" ++ g ++ lit "/" ++ fmtInt skip, none)] ∧
    built (GetModel w o g skip).trace =
      [(lit "GET", o.URI ++ lit "/" ++ g ++ lit "/" ++ fmtInt skip, none)] ∧
    (sent (UpdateStatusModel w o g skip).trace).length ≤ 1 ∧
    (∀ req ∈ sent (UpdateStatusModel w o g skip).trace,
      req = { Method := lit "PUT"
              URL := o.URI ++ lit "/" ++ g ++ lit "/" ++ fmtInt skip
              Header := [(lit "Authorization", [lit "Bearer " ++ o.Token])]
              Body := none }) := by
  have hdef : UpdateStatusModel w o g skip =
      { err := (execute w o g (lit "PUT") (o.URI ++ lit "/" ++ g ++ lit "/" ++ fmtInt skip)
          none none).err
        trace := (execute w o g (lit "PUT") (o.URI ++ lit "/" ++ g ++ lit "/" ++ fmtInt skip)
          none none).trace } := rfl
  have hne : lit "PUT" ≠ [] := by decide
  refine ⟨hdef, ?_, ?_, ?_, ?_⟩
  · rw [hdef, built_execute]
  · exact built_execute w o g _ _ none none
  · rw [hdef, sent_execute]
    split <;> simp
  · intro req hreq
    rw [hdef] at hreq
    obtain ⟨_, h⟩ := of_mem_sent_execute w o _ _ _ _ _ req hreq
    rw [h, outgoing_eq]
    simp [bagIndex, headerEntry, hne]

/-! ## Headers -/

/-- The values of the three headers on the outgoing request. -/
theorem outgoing_values (o : MLCaveAPIClient) (method uri : GoString)
    (body : Option (List UInt8)) (headers : Option HeaderBag) :
    (outgoing o method uri body headers).Header.Values AuthorizationHeader =
      some [lit "Bearer " ++ o.Token] ∧
    (outgoing o method uri body headers).Header.Values ModelParams =
      (bagIndex headers ModelParams).map (fun b => [b]) ∧
    (outgoing o method uri body headers).Header.Values ContentType =
      (bagIndex headers ContentType).map (fun b => [b]) := by
  have h1 : (lit "Authorization" == lit "Modelparams") = false := by decide
  have h2 : (lit "Authorization" == lit "Content-Type") = false := by decide
  have h3 : (lit "Modelparams" == lit "Content-Type") = false := by decide
  have h4 : (lit "Modelparams" == lit "Authorization") = false := by decide
  have h5 : (lit "Content-Type" == lit "Authorization") = false := by decide
  have h6 : (lit "Content-Type" == lit "Modelparams") = false := by decide
  rw [outgoing_header]
  cases bagIndex headers ContentType <;> cases bagIndex headers ModelParams <;>
    simp [Header.Values, Header.index, headerEntry, canonical_authorization,
      canonical_modelParams, canonical_contentType, List.lookup, h1, h2, h3, h4, h5, h6]

/-- C5: for every header bag passed to `PushModel` and every request the call
sends: if `headers[ModelParams]` is a slice `b` that is not nil, the request has a
ModelParams header with the single value `string(b)`, the same bytes; if the bag
is nil or has no ModelParams entry (or the entry is the nil slice), the request has
no ModelParams header. The same holds for the key and the header Content-Type. -/
theorem pushModel_optional_headers (w : World) (o : MLCaveAPIClient) (g : GoString)
    (model : ByteSlice) (headers : Option HeaderBag) (req : Request)
    (hsent : req ∈ sent (PushModel w o g model headers).trace) :
    (∀ b, bagIndex headers ModelParams = some b →
      req.Header.Values ModelParams = some [ByteSlice.string (some b)] ∧
      req.Header.Values ModelParams = some [b]) ∧
    ((headers = none ∨ ∃ m, headers = some m ∧ List.lookup ModelParams m = none) →
      req.Header.Values ModelParams = none) ∧
    (bagIndex headers ModelParams = none → req.Header.Values ModelParams = none) ∧
    (∀ b, bagIndex headers ContentType = some b →
      req.Header.Values ContentType = some [ByteSlice.string (some b)] ∧
      req.Header.Values ContentType = some [b]) ∧
    ((headers = none ∨ ∃ m, headers = some m ∧ List.lookup ContentType m = none) →
      req.Header.Values ContentType = none) ∧
    (bagIndex headers ContentType = none → req.Header.Values ContentType = none) := by
  have hreq : req = outgoing o MethodPost (o.URI ++ lit "/" ++ g) (some (model.getD []))
      headers := (of_mem_sent_execute w o _ _ _ _ _ req hsent).2
  obtain ⟨_, hmp, hct⟩ := outgoing_values o MethodPost (o.URI ++ lit "/" ++ g)
    (some (model.getD [])) headers
  rw [← hreq] at hmp hct
  have habsent : ∀ key : GoString,
      (headers = none ∨ ∃ m, headers = some m ∧ List.lookup key m = none) →
      bagIndex headers key = none := by
    intro key h
    rcases h with h | ⟨m, hm, hl⟩
    · rw [h]; rfl
    · rw [hm]; simp [bagIndex, hl]
  refine ⟨?_, ?_, ?_, ?_, ?_, ?_⟩
  · intro b hb
    rw [hmp, hb]
    exact ⟨rfl, rfl⟩
  · intro h
    rw [hmp, habsent _ h]
    rfl
  · intro h
    rw [hmp, h]
    rfl
  · intro b hb
    rw [hct, hb]
    exact ⟨rfl, rfl⟩
  · intro h
    rw [hct, habsent _ h]
    rfl
  · intro h
    rw [hct, h]
    rfl

/-- C5 at a `PushModel` whose bag supplies `p=1` for ModelParams and nothing for
Content-Type: the request sent has the ModelParams header `p=1` and no
Content-Type header. -/
theorem pushModel_optional_headers_witness :
    (outgoing exampleClient MethodPost (lit "http://svc/groupA") (some [1, 2])
        (some [(ModelParams, some (lit "p=1"))])).Header.Values ModelParams =
      some [lit "p=1"] ∧
    (outgoing exampleClient MethodPost (lit "http://svc/groupA") (some [1, 2])
        (some [(ModelParams, some (lit "p=1"))])).Header.Values ContentType = none := by
  have h := pushModel_optional_headers (answering ⟨200, ⟨[], none, none⟩⟩) exampleClient
    (lit "groupA") (some [1, 2]) (some [(ModelParams, some (lit "p=1"))])
    (outgoing exampleClient MethodPost (lit "http://svc/groupA") (some [1, 2])
      (some [(ModelParams, some (lit "p=1"))])) (by decide)
  exact ⟨(h.1 (lit "p=1") (by decide)).2, h.2.2.2.2.2 (by decide)⟩

/-- The header bag reaches `execute` only through the outgoing request. -/
theorem execute_congr (w : World) (o : MLCaveAPIClient)
    (serviceGroup method uri : GoString) (body : Option (List UInt8))
    (h1 h2 : Option HeaderBag)
    (h : outgoing o method uri body h1 = outgoing o method uri body h2) :
    execute w o serviceGroup method uri body h1 =
      execute w o serviceGroup method uri body h2 := by
  unfold outgoing at h
  unfold execute NewRequest
  cases w.newRequestError method uri with
  | some e => rfl
  | none => simp only [h]

/-- Bags that agree on the two recognized keys give the same outgoing request. -/
theorem outgoing_congr (o : MLCaveAPIClient) (method uri : GoString)
    (body : Option (List UInt8)) (h1 h2 : Option HeaderBag)
    (hmp : bagIndex h1 ModelParams = bagIndex h2 ModelParams)
    (hct : bagIndex h1 ContentType = bagIndex h2 ContentType) :
    outgoing o method uri body h1 = outgoing o method uri body h2 := by
  rw [outgoing_eq, outgoing_eq, hmp, hct]

/-- C6: for every client with token `t`, every call and every header bag, every
request handed to the transport has the Authorization header with the single value
`"Bearer " ++ t`, under exactly one entry of the header map, and every header name
on the request is the canonical form of Authorization, ModelParams or Content-Type
(`Authorization`, `Modelparams`, `Content-Type`). Keys of the bag other than
ModelParams and Content-Type, an `Authorization` key included, have no effect:
bags that agree on these two keys give the same results and the same trace. -/
theorem authorization_on_every_request (w : World) (o : MLCaveAPIClient) (c : Call)
    (req : Request) (hsent : req ∈ sent (c.trace w o)) :
    req.Header.Values AuthorizationHeader = some [lit "Bearer " ++ o.Token] ∧
    req.Header.names.count (CanonicalMIMEHeaderKey AuthorizationHeader) = 1 ∧
    (∀ name ∈ req.Header.names,
      name = CanonicalMIMEHeaderKey AuthorizationHeader ∨
      name = CanonicalMIMEHeaderKey ModelParams ∨
      name = CanonicalMIMEHeaderKey ContentType) ∧
    (∀ name ∈ req.Header.names,
      name = lit "Authorization" ∨ name = lit "Modelparams" ∨ name = lit "Content-Type") ∧
    (∀ (g m u : GoString) (b : Option (List UInt8)) (h1 h2 : Option HeaderBag),
      bagIndex h1 ModelParams = bagIndex h2 ModelParams →
      bagIndex h1 ContentType = bagIndex h2 ContentType →
      execute w o g m u b h1 = execute w o g m u b h2) ∧
    (∀ (g : GoString) (model : ByteSlice) (h1 h2 : Option HeaderBag),
      bagIndex h1 ModelParams = bagIndex h2 ModelParams →
      bagIndex h1 ContentType = bagIndex h2 ContentType →
      PushModel w o g model h1 = PushModel w o g model h2) := by
  obtain ⟨uri, body, headers, _, htrace, _⟩ := Call.as_execute w o c
  rw [htrace] at hsent
  obtain ⟨_, hreq⟩ := of_mem_sent_execute w o _ _ _ _ _ req hsent
  have h1 : (lit "Modelparams" == lit "Authorization") = false := by decide
  have h2 : (lit "Content-Type" == lit "Authorization") = false := by decide
  have hnames : ∀ name ∈ req.Header.names,
      name = lit "Authorization" ∨ name = lit "Modelparams" ∨ name = lit "Content-Type" := by
    intro name hname
    rw [hreq, Header.names, outgoing_header] at hname
    cases hc : bagIndex headers ContentType <;> cases hm : bagIndex headers ModelParams <;>
      simp [hc, hm, headerEntry] at hname <;> aesop
  refine ⟨?_, ?_, ?_, hnames, ?_, ?_⟩
  · rw [hreq]
    exact (outgoing_values o c.method uri body headers).1
  · rw [hreq, Header.names, outgoing_header, canonical_authorization]
    cases bagIndex headers ContentType <;> cases bagIndex headers ModelParams <;>
      simp [headerEntry, List.count_cons, h1, h2]
  · rw [canonical_authorization, canonical_modelParams, canonical_contentType]
    exact hnames
  · intro g m u b b1 b2 hmp hct
    exact execute_congr w o g m u b b1 b2 (outgoing_congr o m u b b1 b2 hmp hct)
  · intro g model b1 b2 hmp hct
    simp only [PushModel, executeWithoutResponseBody]
    rw [execute_congr w o g _ _ _ b1 b2 (outgoing_congr o _ _ _ b1 b2 hmp hct)]

/-- C6 at a `PushModel` whose bag has an `Authorization` key and an unknown key:
the request sent carries `Bearer abc` under its one Authorization entry, and the
same call with a nil bag gives the same result. -/
theorem authorization_on_every_request_witness :
    (outgoing exampleClient MethodPost (lit "http://svc/groupA") (some [1, 2])
        (some [(lit "Authorization", some (lit "Bearer evil")),
          (lit "X-Other", some (lit "1"))])).Header.Values AuthorizationHeader =
      some [lit "Bearer " ++ exampleClient.Token] ∧
    (outgoing exampleClient MethodPost (lit "http://svc/groupA") (some [1, 2])
        (some [(lit "Authorization", some (lit "Bearer evil")),
          (lit "X-Other", some (lit "1"))])).Header.names.count
        (CanonicalMIMEHeaderKey AuthorizationHeader) = 1 ∧
    PushModel (answering ⟨200, ⟨[], none, none⟩⟩) exampleClient (lit "groupA") (some [1, 2])
        (some [(lit "Authorization", some (lit "Bearer evil")), (lit "X-Other", some (lit "1"))]) =
      PushModel (answering ⟨200, ⟨[], none, none⟩⟩) exampleClient (lit "groupA") (some [1, 2])
        none := by
  have h := authorization_on_every_request (answering ⟨200, ⟨[], none, none⟩⟩) exampleClient
    (.PushModel (lit "groupA") (some [1, 2])
      (some [(lit "Authorization", some (lit "Bearer evil")), (lit "X-Other", some (lit "1"))]))
    (outgoing exampleClient MethodPost (lit "http://svc/groupA") (some [1, 2])
      (some [(lit "Authorization", some (lit "Bearer evil")),
        (lit "X-Other", some (lit "1"))])) (by decide)
  exact ⟨h.1, h.2.1, h.2.2.2.2.2 (lit "groupA") (some [1, 2]) _ none (by decide) (by decide)⟩

/-! ## The outcomes of a call -/

/-- C7, the claim as stated fails: `GetModel("groupA", 3)` answered with status 200
and a body that delivers `he` and then fails returns the bytes `he` together with
the read error, which is none of the three kinds. -/
theorem outcome_outside_taxonomy :
    (GetModel (answering ⟨200, ⟨lit "he", some ⟨lit "unexpected EOF"⟩, none⟩⟩) exampleClient
        (lit "groupA") 3).inTaxonomy = false ∧
    (GetModel (answering ⟨200, ⟨lit "he", some ⟨lit "unexpected EOF"⟩, none⟩⟩) exampleClient
        (lit "groupA") 3).bytes = some (lit "he") ∧
    (GetModel (answering ⟨200, ⟨lit "he", some ⟨lit "unexpected EOF"⟩, none⟩⟩) exampleClient
        (lit "groupA") 3).err = some (.readBody ⟨lit "unexpected EOF"⟩) := by
  decide

/-- C7, amended: every call (of `execute` or of one of the three operations), in
every environment, ends in one of three ways. Either the error is nil and the
bytes returned are the whole body of a 200 response; or the bytes returned are nil
and the error is the request-build error (method, base URI, cause), the transport
error (method, request, cause) or the status error (a code other than 200, the
service group); or the response had status 200, reading its body failed, and the
call returns the bytes read before the failure together with the read error, not
wrapped. -/
theorem outcome_cases (w : World) (o : MLCaveAPIClient) (c : Call) :
    (c.err w o = none ∧
      ∃ req response, req ∈ sent (c.trace w o) ∧
        w.Do o.httpClient req = .response response ∧ response.StatusCode = 200 ∧
        response.Body.readErr = none ∧
        ∀ b, c.payload w o = some b → b = some response.Body.data) ∨
    ((∀ b, c.payload w o = some b → b = none) ∧
      ((∃ cause, c.err w o = some (.createRequest c.method o.URI cause)) ∨
       (∃ req cause, c.err w o = some (.sendRequest c.method req cause)) ∨
       (∃ code, code ≠ 200 ∧ c.err w o = some (.statusCode code c.serviceGroup)))) ∨
    (∃ req response cause, req ∈ sent (c.trace w o) ∧
      w.Do o.httpClient req = .response response ∧ response.StatusCode = 200 ∧
      response.Body.readErr = some cause ∧
      c.err w o = some (.readBody cause) ∧
      ∀ b, c.payload w o = some b → b = some response.Body.data) := by
  obtain ⟨uri, body, headers, herr, htrace, hpay⟩ := Call.as_execute w o c
  rw [herr, htrace]
  cases hnew : w.newRequestError c.method uri with
  | some e =>
    have hex := execute_createRequest w o c.serviceGroup c.method uri body headers e hnew
    rw [hex] at hpay
    rw [hex]
    exact Or.inr (Or.inl ⟨hpay, Or.inl ⟨e, rfl⟩⟩)
  | none =>
    cases hdo : w.Do o.httpClient (outgoing o c.method uri body headers) with
    | failure r e =>
      have hex := execute_sendFailure w o c.serviceGroup c.method uri body headers r e hnew hdo
      rw [hex] at hpay
      rw [hex]
      exact Or.inr (Or.inl ⟨hpay, Or.inr (Or.inl ⟨_, e, rfl⟩)⟩)
    | response response =>
      by_cases hs : response.StatusCode = StatusOK
      · have hex := execute_statusOK w o c.serviceGroup c.method uri body headers response
          hnew hdo hs
        rw [hex] at hpay
        rw [hex]
        cases hread : response.Body.readErr with
        | none =>
          exact Or.inl ⟨rfl, _, response, by simp [sent], hdo, hs, hread, hpay⟩
        | some cause =>
          exact Or.inr (Or.inr ⟨_, response, cause, by simp [sent], hdo, hs, hread, rfl, hpay⟩)
      · have hex := execute_badStatus w o c.serviceGroup c.method uri body headers response
          hnew hdo hs
        rw [hex] at hpay
        rw [hex]
        exact Or.inr (Or.inl ⟨hpay, Or.inr (Or.inr ⟨_, hs, rfl⟩)⟩)

/-! ## Transport failure -/

/-- C8: for every call and every request it sent, if `httpClient.Do` fails on that
request, the call returns the transport error for the call's method, that request
and the cause, an error whose text contains the method and the text of the cause;
the bytes returned, if the call returns bytes, are nil; and the trace is the
building of the request followed by the one send: no second send, no read of a
body, no close, no log. -/
theorem transport_failure (w : World) (o : MLCaveAPIClient) (c : Call)
    (req : Request) (response : Option Response) (cause : StdError)
    (hsent : req ∈ sent (c.trace w o))
    (hdo : w.Do o.httpClient req = .failure response cause) :
    c.err w o = some (.sendRequest c.method req cause) ∧
    (∃ e, c.err w o = some e ∧ c.method <:+: e.text w ∧ cause.msg <:+: e.text w) ∧
    (∀ b, c.payload w o = some b → b = none) ∧
    sent (c.trace w o) = [req] ∧
    (∃ uri body, c.trace w o = [.newRequest c.method uri body, .send req]) := by
  obtain ⟨uri, body, headers, herr, htrace, hpay⟩ := Call.as_execute w o c
  rw [htrace] at hsent
  obtain ⟨hnew, hreq⟩ := of_mem_sent_execute w o _ _ _ _ _ req hsent
  rw [hreq] at hdo
  have hex := execute_sendFailure w o c.serviceGroup c.method uri body headers response cause
    hnew hdo
  rw [hex] at herr hpay htrace
  rw [← hreq] at herr htrace
  refine ⟨herr, ⟨_, herr, ?_, ?_⟩, hpay, ?_, uri, body, htrace⟩
  · exact ⟨lit "execute() send http ",
      lit " error, httpRequest: " ++ w.formatRequest req ++ lit ". Error: " ++ cause.msg,
      by simp [Error.text]⟩
  · exact ⟨lit "execute() send http " ++ c.method ++ lit " error, httpRequest: " ++
      w.formatRequest req ++ lit ". Error: ", [], by simp [Error.text]⟩
  · rw [htrace]
    rfl

/-- C8 at `UpdateStatusModel("groupA", 3)` in an environment where every send is
refused: the call returns the transport error, after one send. -/
theorem transport_failure_witness :
    (UpdateStatusModel (refusing ⟨lit "connection refused"⟩) exampleClient (lit "groupA") 3).err =
      some (.sendRequest (lit "PUT")
        (outgoing exampleClient MethodPut (lit "http://svc/groupA/3") none none)
        ⟨lit "connection refused"⟩) ∧
    sent (UpdateStatusModel (refusing ⟨lit "connection refused"⟩) exampleClient
        (lit "groupA") 3).trace =
      [outgoing exampleClient MethodPut (lit "http://svc/groupA/3") none none] := by
  have h := transport_failure (refusing ⟨lit "connection refused"⟩) exampleClient
    (.UpdateStatusModel (lit "groupA") 3)
    (outgoing exampleClient MethodPut (lit "http://svc/groupA/3") none none) none
    ⟨lit "connection refused"⟩ (by decide) rfl
  exact ⟨h.1, h.2.2.2.1⟩

/-! ## Closing the response body -/

/-- The results of `execute` and its steps other than logging do not depend on
what closing the response body returns. -/
theorem execute_withCloseErr (w : World) (o : MLCaveAPIClient)
    (serviceGroup method uri : GoString) (body : Option (List UInt8))
    (headers : Option HeaderBag) (closeErr : Option StdError) :
    (execute (w.withCloseErr closeErr) o serviceGroup method uri body headers).bytes =
      (execute w o serviceGroup method uri body headers).bytes ∧
    (execute (w.withCloseErr closeErr) o serviceGroup method uri body headers).err =
      (execute w o serviceGroup method uri body headers).err ∧
    unlogged (execute (w.withCloseErr closeErr) o serviceGroup method uri body headers).trace =
      unlogged (execute w o serviceGroup method uri body headers).trace := by
  cases hnew : w.newRequestError method uri with
  | some e =>
    rw [execute_createRequest w o serviceGroup method uri body headers e hnew,
      execute_createRequest (w.withCloseErr closeErr) o serviceGroup method uri body headers e
        hnew]
    exact ⟨rfl, rfl, rfl⟩
  | none =>
    cases hdo : w.Do o.httpClient (outgoing o method uri body headers) with
    | failure r e =>
      have hdo2 : (w.withCloseErr closeErr).Do o.httpClient
          (outgoing o method uri body headers) = .failure r e := by
        simp [World.withCloseErr, hdo]
      rw [execute_sendFailure w o serviceGroup method uri body headers r e hnew hdo,
        execute_sendFailure (w.withCloseErr closeErr) o serviceGroup method uri body headers r e
          hnew hdo2]
      exact ⟨rfl, rfl, rfl⟩
    | response response =>
      have hdo2 : (w.withCloseErr closeErr).Do o.httpClient
          (outgoing o method uri body headers) =
          .response { response with Body := { response.Body with closeErr := closeErr } } := by
        simp [World.withCloseErr, hdo]
      by_cases hs : response.StatusCode = StatusOK
      · rw [execute_statusOK w o serviceGroup method uri body headers response hnew hdo hs,
          execute_statusOK (w.withCloseErr closeErr) o serviceGroup method uri body headers _
            hnew hdo2 hs]
        simp [unlogged, unlogged_deferredClose]
      · rw [execute_badStatus w o serviceGroup method uri body headers response hnew hdo hs,
          execute_badStatus (w.withCloseErr closeErr) o serviceGroup method uri body headers _
            hnew hdo2 hs]
        simp [unlogged, unlogged_deferredClose]

/-- C9: for every call whose send succeeded, on the non-200 path, the path of a
complete read and the path of a failed read alike, the response body is closed
exactly once, as the last step but for the log; nothing is logged when the close
succeeds, and when it fails the one log entry carries the close error. Whatever
the close returns, the bytes and the error the call returns and its steps other
than logging are the same: the error assigned in the deferred function is not the
error returned. -/
theorem body_closed_once (w : World) (o : MLCaveAPIClient) (c : Call)
    (req : Request) (response : Response)
    (hsent : req ∈ sent (c.trace w o))
    (hdo : w.Do o.httpClient req = .response response) :
    (c.trace w o).count .close = 1 ∧
    (∃ steps, c.trace w o = steps ++ deferredClose response ∧ Event.close ∉ steps ∧
      ∀ text, Event.log text ∉ steps) ∧
    (response.Body.closeErr = none → deferredClose response = [.close]) ∧
    (∀ e, response.Body.closeErr = some e →
      deferredClose response =
        [.close, .log (lit "response.Body.Close() error: " ++ e.msg)]) ∧
    (∀ closeErr : Option StdError,
      c.err (w.withCloseErr closeErr) o = c.err w o ∧
      c.payload (w.withCloseErr closeErr) o = c.payload w o ∧
      unlogged (c.trace (w.withCloseErr closeErr) o) = unlogged (c.trace w o)) := by
  have hclose : ∀ closeErr : Option StdError,
      c.err (w.withCloseErr closeErr) o = c.err w o ∧
      c.payload (w.withCloseErr closeErr) o = c.payload w o ∧
      unlogged (c.trace (w.withCloseErr closeErr) o) = unlogged (c.trace w o) := by
    intro closeErr
    cases c with
    | execute g m u b h =>
      obtain ⟨h1, h2, h3⟩ := execute_withCloseErr w o g m u b h closeErr
      exact ⟨h2, congrArg some h1, h3⟩
    | PushModel g model h =>
      obtain ⟨_, h2, h3⟩ := execute_withCloseErr w o g MethodPost (o.URI ++ lit "/" ++ g)
        (some (model.getD [])) h closeErr
      exact ⟨h2, rfl, h3⟩
    | GetModel g skip =>
      obtain ⟨h1, h2, h3⟩ := execute_withCloseErr w o g MethodGet
        (o.URI ++ lit "/" ++ g ++ lit "/" ++ fmtInt skip) none none closeErr
      exact ⟨h2, congrArg some h1, h3⟩
    | UpdateStatusModel g skip =>
      obtain ⟨_, h2, h3⟩ := execute_withCloseErr w o g MethodPut
        (o.URI ++ lit "/" ++ g ++ lit "/" ++ fmtInt skip) none none closeErr
      exact ⟨h2, rfl, h3⟩
  obtain ⟨uri, body, headers, _, htrace, _⟩ := Call.as_execute w o c
  rw [htrace] at hsent
  obtain ⟨hnew, hreq⟩ := of_mem_sent_execute w o _ _ _ _ _ req hsent
  rw [hreq] at hdo
  refine ⟨?_, ?_, ?_, ?_, hclose⟩
  · rw [htrace]
    by_cases hs : response.StatusCode = StatusOK
    · rw [execute_statusOK w o c.serviceGroup c.method uri body headers response hnew hdo hs]
      simp [List.count_cons, count_close_deferredClose]
    · rw [execute_badStatus w o c.serviceGroup c.method uri body headers response hnew hdo hs]
      simp [List.count_cons, count_close_deferredClose]
  · rw [htrace]
    by_cases hs : response.StatusCode = StatusOK
    · rw [execute_statusOK w o c.serviceGroup c.method uri body headers response hnew hdo hs]
      exact ⟨_, rfl, by simp, by simp⟩
    · rw [execute_badStatus w o c.serviceGroup c.method uri body headers response hnew hdo hs]
      exact ⟨_, rfl, by simp, by simp⟩
  · intro h
    simp [deferredClose, ResponseBody.Close, h]
  · intro e h
    simp [deferredClose, ResponseBody.Close, h]

/-- C9 at `GetModel("groupA", 3)` answered with status 200, the body `hello` and a
close that fails: the body is closed once and the call returns what it returns
when the close succeeds. -/
theorem body_closed_once_witness :
    (GetModel (answering ⟨200, ⟨lit "hello", none, some ⟨lit "already closed"⟩⟩⟩) exampleClient
        (lit "groupA") 3).trace.count .close = 1 ∧
    (GetModel ((answering ⟨200, ⟨lit "hello", none, some ⟨lit "already closed"⟩⟩⟩).withCloseErr
        none) exampleClient (lit "groupA") 3).err =
      (GetModel (answering ⟨200, ⟨lit "hello", none, some ⟨lit "already closed"⟩⟩⟩) exampleClient
        (lit "groupA") 3).err := by
  have h := body_closed_once (answering ⟨200, ⟨lit "hello", none, some ⟨lit "already closed"⟩⟩⟩)
    exampleClient (.GetModel (lit "groupA") 3)
    (outgoing exampleClient MethodGet (lit "http://svc/groupA/3") none none)
    ⟨200, ⟨lit "hello", none, some ⟨lit "already closed"⟩⟩⟩ (by decide) rfl
  exact ⟨h.1, (h.2.2.2.2 none).1⟩

/-! ## Construction -/

/-- C10, the claim as stated fails: a configuration with the non-negative timeout
of 9223372037 seconds, a value of a 64-bit Go integer, gives a client whose
timeout is negative, not 9223372037 * 10^9 nanoseconds. -/
theorem timeout_wraps_around :
    (0 : Int) ≤ 9223372037 ∧ (9223372037 : Int) ≤ 9223372036854775807 ∧
    (NewMLCaveAPIClient
      { URI := lit "http://svc", Token := lit "abc", TimeoutSec := 9223372037 }).httpClient.Timeout =
      -9223372036709551616 ∧
    (NewMLCaveAPIClient
      { URI := lit "http://svc", Token := lit "abc", TimeoutSec := 9223372037 }).httpClient.Timeout ≠
      9223372037 * 1000000000 := by
  decide

/-- C10, amended: for every configuration whose timeout is at least 0 and at most
9223372036 seconds, `NewMLCaveAPIClient`, a total function, returns a client with
the URI and the token of the configuration and a timeout of exactly
`TimeoutSec * 10^9` nanoseconds, within the range of a 64-bit duration; the timeout
is zero, which `http.Client` reads as no timeout, exactly when `TimeoutSec` is. -/
theorem newClient_fields (cfg : MLCaveClientConfig)
    (hmin : 0 ≤ cfg.TimeoutSec) (hmax : cfg.TimeoutSec ≤ 9223372036) :
    (NewMLCaveAPIClient cfg).URI = cfg.URI ∧
    (NewMLCaveAPIClient cfg).Token = cfg.Token ∧
    (NewMLCaveAPIClient cfg).httpClient.Timeout = cfg.TimeoutSec * 1000000000 ∧
    (NewMLCaveAPIClient cfg).httpClient.Timeout ≤ 9223372036854775807 ∧
    ((NewMLCaveAPIClient cfg).httpClient.Timeout = 0 ↔ cfg.TimeoutSec = 0) := by
  have ht : (NewMLCaveAPIClient cfg).httpClient.Timeout = cfg.TimeoutSec * 1000000000 := by
    simp only [NewMLCaveAPIClient, wrapInt64, Second]
    omega
  refine ⟨rfl, rfl, ht, ?_, ?_⟩
  · rw [ht]
    omega
  · rw [ht]
    omega

/-- C10, amended, at the configuration of the example client, 30 seconds. -/
theorem newClient_fields_witness :
    exampleClient.URI = lit "http://svc" ∧ exampleClient.Token = lit "abc" ∧
    exampleClient.httpClient.Timeout = 30 * 1000000000 := by
  have h := newClient_fields
    { URI := lit "http://svc", Token := lit "abc", TimeoutSec := 30 } (by decide) (by decide)
  exact ⟨h.1, h.2.1, h.2.2.1⟩

end MLCave
